import Mathlib

/-
Verification development for the eksisozluk client (src/mod.ts).

The TypeScript source is shallowly embedded: pure functions become Lean
functions, the mutable module-level state (retry counter, rate-limit
handle, URL objects mutated in place) becomes explicit state passing,
and JS numeric coercions are modelled by an explicit integer-or-NaN type.
-/

/-- Model of the JS Date value by the five constructor arguments the source
passes at mod.ts lines 266-272. The Date constructor itself is an external
collaborator; the development only tracks which components reach it. -/
structure EDate where
  year : Int
  month : Int
  day : Int
  hour : Int
  minute : Int
deriving DecidableEq, Repr

/-- Numeric value of an ASCII digit character, as the JS unary plus turns a
matched digit group into a number. -/
def digitVal (c : Char) : Nat := c.toNat - 48

/-- Embedding of parseDate (mod.ts lines 258-273) on the character list of
the input. The regex is translated literally: ten leading characters of
shape dd.mm.yyyy, then one optional group of shape space hh colon mm with
anything allowed after it. On a match it builds the Date arguments
(+match[3], +match[2] - 1, +match[1], +match[4] or 0, +match[5] or 0);
otherwise it throws the string given at line 263. -/
def parseDateChars : List Char → Except String EDate
  | d1 :: d2 :: p1 :: m1 :: m2 :: p2 :: y1 :: y2 :: y3 :: y4 :: rest =>
    if d1.isDigit && d2.isDigit && p1 == '.' && m1.isDigit && m2.isDigit && p2 == '.' &&
        y1.isDigit && y2.isDigit && y3.isDigit && y4.isDigit then
      let time : Option (Nat × Nat) :=
        match rest with
        | sp :: h1 :: h2 :: co :: n1 :: n2 :: _ =>
          if sp == ' ' && h1.isDigit && h2.isDigit && co == ':' && n1.isDigit && n2.isDigit then
            some (10 * digitVal h1 + digitVal h2, 10 * digitVal n1 + digitVal n2)
          else none
        | _ => none
      Except.ok
        { year := (1000 * digitVal y1 + 100 * digitVal y2 + 10 * digitVal y3 + digitVal y4 : Nat)
          month := ((10 * digitVal m1 + digitVal m2 : Nat) : Int) - 1
          day := (10 * digitVal d1 + digitVal d2 : Nat)
          hour := ((time.map Prod.fst).getD 0 : Nat)
          minute := ((time.map Prod.snd).getD 0 : Nat) }
    else Except.error "Invalid date format"
  | _ => Except.error "Invalid date format"

/-- parseDate from mod.ts line 258: the regex works on the string contents. -/
def parseDate (s : String) : Except String EDate := parseDateChars s.data

instance {e a : Type} [DecidableEq e] [DecidableEq a] : DecidableEq (Except e a) := fun x y =>
  match x, y with
  | Except.ok u, Except.ok v =>
    if h : u = v then Decidable.isTrue (by rw [h])
    else Decidable.isFalse (fun hc => h (Except.ok.inj hc))
  | Except.error u, Except.error v =>
    if h : u = v then Decidable.isTrue (by rw [h])
    else Decidable.isFalse (fun hc => h (Except.error.inj hc))
  | Except.ok _, Except.error _ => Decidable.isFalse (fun hc => Except.noConfusion hc)
  | Except.error _, Except.ok _ => Decidable.isFalse (fun hc => Except.noConfusion hc)

/-- The ten-character leading shape two digits, dot, two digits, dot, four
digits, with no constraint on anything after it. This is the claim-side
description of when the regex of parseDate matches. -/
def leadingDateShape : List Char → Bool
  | d1 :: d2 :: p1 :: m1 :: m2 :: p2 :: y1 :: y2 :: y3 :: y4 :: _ =>
    d1.isDigit && d2.isDigit && p1 == '.' && m1.isDigit && m2.isDigit && p2 == '.' &&
      y1.isDigit && y2.isDigit && y3.isDigit && y4.isDigit
  | _ => false

theorem parseDateChars_error_of_shape_false :
    ∀ l : List Char, leadingDateShape l = false →
      parseDateChars l = Except.error "Invalid date format"
  | a :: b :: c :: d :: e :: f :: g :: i :: j :: k :: rest, h => by
    simp only [leadingDateShape] at h
    rw [parseDateChars.eq_def]
    simp [h]
  | [], _ => rfl
  | [a], _ => rfl
  | [a, b], _ => rfl
  | [a, b, c], _ => rfl
  | [a, b, c, d], _ => rfl
  | [a, b, c, d, e], _ => rfl
  | [a, b, c, d, e, f], _ => rfl
  | [a, b, c, d, e, f, g], _ => rfl
  | [a, b, c, d, e, f, g, i], _ => rfl
  | [a, b, c, d, e, f, g, i, j], _ => rfl

theorem parseDateChars_ok_of_shape_true :
    ∀ l : List Char, leadingDateShape l = true → ∃ d, parseDateChars l = Except.ok d
  | a :: b :: c :: d :: e :: f :: g :: i :: j :: k :: rest, h => by
    simp only [leadingDateShape] at h
    rw [parseDateChars.eq_def]
    simp only [h]
    exact ⟨_, rfl⟩
  | [], h => Bool.noConfusion h
  | [a], h => Bool.noConfusion h
  | [a, b], h => Bool.noConfusion h
  | [a, b, c], h => Bool.noConfusion h
  | [a, b, c, d], h => Bool.noConfusion h
  | [a, b, c, d, e], h => Bool.noConfusion h
  | [a, b, c, d, e, f], h => Bool.noConfusion h
  | [a, b, c, d, e, f, g], h => Bool.noConfusion h
  | [a, b, c, d, e, f, g, i], h => Bool.noConfusion h
  | [a, b, c, d, e, f, g, i, j], h => Bool.noConfusion h

/-- C8: parseDate keeps only the first date or date-time pair of the input:
with a full time present, any following text (in particular the tilde
separated last-edit portion) does not change the result; with the time
absent the hour and minute default to 0; the month argument is the literal
month decremented by one; and every string whose contents do not begin with
the dd.mm.yyyy shape fails with the invalid-date-format error, so no
partial result is ever returned. -/
theorem parseDate_first_pair
    (d1 d2 m1 m2 y1 y2 y3 y4 h1 h2 n1 n2 : Char)
    (hd : (d1.isDigit && d2.isDigit && m1.isDigit && m2.isDigit &&
           y1.isDigit && y2.isDigit && y3.isDigit && y4.isDigit) = true)
    (ht : (h1.isDigit && h2.isDigit && n1.isDigit && n2.isDigit) = true)
    (tail : List Char) :
    parseDate (String.mk (d1 :: d2 :: '.' :: m1 :: m2 :: '.' :: y1 :: y2 :: y3 :: y4 ::
        ' ' :: h1 :: h2 :: ':' :: n1 :: n2 :: tail)) =
      Except.ok
        { year := (1000 * digitVal y1 + 100 * digitVal y2 + 10 * digitVal y3 + digitVal y4 : Nat)
          month := ((10 * digitVal m1 + digitVal m2 : Nat) : Int) - 1
          day := (10 * digitVal d1 + digitVal d2 : Nat)
          hour := (10 * digitVal h1 + digitVal h2 : Nat)
          minute := (10 * digitVal n1 + digitVal n2 : Nat) }
  ∧ parseDate (String.mk [d1, d2, '.', m1, m2, '.', y1, y2, y3, y4]) =
      Except.ok
        { year := (1000 * digitVal y1 + 100 * digitVal y2 + 10 * digitVal y3 + digitVal y4 : Nat)
          month := ((10 * digitVal m1 + digitVal m2 : Nat) : Int) - 1
          day := (10 * digitVal d1 + digitVal d2 : Nat)
          hour := 0
          minute := 0 }
  ∧ (∀ s : String, leadingDateShape s.data = false →
      parseDate s = Except.error "Invalid date format") := by
  simp only [Bool.and_eq_true] at hd ht
  obtain ⟨⟨⟨⟨⟨⟨⟨hd1, hd2⟩, hm1⟩, hm2⟩, hy1⟩, hy2⟩, hy3⟩, hy4⟩ := hd
  obtain ⟨⟨⟨hh1, hh2⟩, hn1⟩, hn2⟩ := ht
  refine ⟨?_, ?_, ?_⟩
  · simp only [parseDate]
    rw [parseDateChars.eq_def]
    simp [hd1, hd2, hm1, hm2, hy1, hy2, hy3, hy4, hh1, hh2, hn1, hn2]
  · simp only [parseDate]
    rw [parseDateChars.eq_def]
    simp [hd1, hd2, hm1, hm2, hy1, hy2, hy3, hy4]
  · intro s hs
    exact parseDateChars_error_of_shape_false s.data hs

/-- Witness for C8 at the test inputs of the repository, including the
tilde-separated last-edit stamp which must be ignored. -/
theorem parseDate_first_pair_witness :
    parseDate "24.02.2023 18:34 ~ 22:55" =
      Except.ok { year := 2023, month := 1, day := 24, hour := 18, minute := 34 }
  ∧ parseDate "24.02.2023" =
      Except.ok { year := 2023, month := 1, day := 24, hour := 0, minute := 0 }
  ∧ parseDate "hello" = Except.error "Invalid date format" := by
  have h := parseDate_first_pair '2' '4' '0' '2' '2' '0' '2' '3' '1' '8' '3' '4'
    (by decide) (by decide) (' ' :: '~' :: ' ' :: '2' :: '2' :: ':' :: '5' :: '5' :: [])
  refine ⟨?_, ?_, ?_⟩
  · have h1 := h.1
    simpa using h1
  · have h2 := h.2.1
    simpa using h2
  · exact h.2.2 "hello" (by decide)

/-- C10: parseDate raises its invalid-date-format error exactly on the
inputs whose contents do not begin with the ten-character shape two digits,
dot, two digits, dot, four digits; whenever the contents do begin with that
shape, with no range check of the fields and no constraint on the rest of
the string, it succeeds with some constructed value. -/
theorem parseDate_error_iff (s : String) :
    (parseDate s = Except.error "Invalid date format" ↔ leadingDateShape s.data = false)
  ∧ (leadingDateShape s.data = true → ∃ d, parseDate s = Except.ok d) := by
  constructor
  · constructor
    · intro he
      by_contra hb
      have hsh : leadingDateShape s.data = true := by
        cases h : leadingDateShape s.data
        · exact absurd h hb
        · rfl
      obtain ⟨d, hd⟩ := parseDateChars_ok_of_shape_true s.data hsh
      rw [parseDate] at he
      rw [hd] at he
      exact Except.noConfusion he
    · intro hs
      exact parseDateChars_error_of_shape_false s.data hs
  · intro hs
    exact parseDateChars_ok_of_shape_true s.data hs

/-- Witness for C10: a wildly out-of-range date with arbitrary trailing
text succeeds, and a non-matching string fails. -/
theorem parseDate_error_iff_witness :
    (∃ d, parseDate "99.99.9999 anything goes here" = Except.ok d)
  ∧ parseDate "9.9.2023" = Except.error "Invalid date format" := by
  refine ⟨(parseDate_error_iff "99.99.9999 anything goes here").2 (by decide), ?_⟩
  exact (parseDate_error_iff "9.9.2023").1.2 (by decide)

/-- Default of options.maxRetries from the constructor at mod.ts line 23. -/
def defaultMaxRetries : Nat := 5

/-- Default of options.reqDelay from the constructor at mod.ts line 22. -/
def defaultReqDelay : Nat := 250

/-- One attempt of the underlying wrapped fetch: either the send throws at
the network level, or an HTTP response with the given status arrives. -/
inductive Attempt where
  | netError
  | response (status : Nat)
deriving DecidableEq, Repr

/-- The res.ok test: status in the 2xx range. -/
def statusOk (n : Nat) : Bool := decide (200 ≤ n ∧ n < 300)

/-- The attempts the retry closure of fetch treats as transient: a thrown
send (line 60) or status 429 or 503 (lines 64-70). -/
def isTransient : Attempt → Bool
  | Attempt.netError => true
  | Attempt.response n => !statusOk n && (n == 429 || n == 503)

/-- The possible outcomes of one logical fetch call. -/
inductive FetchOutcome where
  | success (status : Nat) (retryCount : Nat)
  | maxRetriesExceeded
  | requestFailed (status : Nat)
  | pending
deriving DecidableEq, Repr

/-- Embedding of EksiSozluk.fetch (mod.ts lines 31-78). The shared static
retryCount is threaded explicitly; the sequence of attempt results that the
network will produce is an explicit oracle list, each recursive re-send
consuming one attempt. The retry closure (lines 37-46) first increments the
counter, fails when it exceeds maxRetries, and otherwise re-enters fetch; a
successful response resets the counter to zero (line 76) and is returned
together with that counter value. -/
def fetch (maxRetries : Nat) : Nat → List Attempt → FetchOutcome
  | _, [] => FetchOutcome.pending
  | retryCount, a :: rest =>
    let retryStep : FetchOutcome :=
      if retryCount + 1 > maxRetries then FetchOutcome.maxRetriesExceeded
      else fetch maxRetries (retryCount + 1) rest
    match a with
    | Attempt.netError => retryStep
    | Attempt.response n =>
      if statusOk n then FetchOutcome.success n 0
      else if n == 429 then retryStep
      else if n == 503 then retryStep
      else FetchOutcome.requestFailed n

theorem fetch_transient_run (m : Nat) (ts : List Attempt)
    (h : ∀ a ∈ ts, isTransient a = true) :
    ∀ (c : Nat) (rest : List Attempt), c + ts.length ≤ m →
      fetch m c (ts ++ rest) = fetch m (c + ts.length) rest := by
  induction ts with
  | nil => intro c rest _; simp
  | cons a ts ih =>
    intro c rest hle
    have ha : isTransient a = true := h a (by simp)
    have hts : ∀ x ∈ ts, isTransient x = true := fun x hx => h x (by simp [hx])
    have hc1 : ¬ (c + 1 > m) := by
      simp only [List.length_cons] at hle
      omega
    have step : fetch m c ((a :: ts) ++ rest) = fetch m (c + 1) (ts ++ rest) := by
      cases a with
      | netError => simp [fetch, hc1]
      | response n =>
        simp only [isTransient, Bool.and_eq_true, Bool.or_eq_true, beq_iff_eq,
          Bool.not_eq_eq_eq_not, Bool.not_true] at ha
        rcases ha.2 with hn | hn <;>
          subst hn <;> simp [fetch, hc1, statusOk]
    rw [step, ih hts (c + 1) rest (by simp only [List.length_cons] at hle; omega)]
    congr 1
    simp only [List.length_cons]
    omega

theorem fetch_transient_exhaust (m : Nat) (ts : List Attempt)
    (h : ∀ a ∈ ts, isTransient a = true) :
    ∀ (c : Nat) (rest : List Attempt), c + ts.length = m + 1 → ts ≠ [] →
      fetch m c (ts ++ rest) = FetchOutcome.maxRetriesExceeded := by
  induction ts with
  | nil => intro c rest _ hne; exact absurd rfl hne
  | cons a ts ih =>
    intro c rest hlen _
    have ha : isTransient a = true := h a (by simp)
    have hts : ∀ x ∈ ts, isTransient x = true := fun x hx => h x (by simp [hx])
    cases ts with
    | nil =>
      have hcm : c + 1 > m := by simp only [List.length_cons, List.length_nil] at hlen; omega
      cases a with
      | netError => simp [fetch, hcm]
      | response n =>
        simp only [isTransient, Bool.and_eq_true, Bool.or_eq_true, beq_iff_eq,
          Bool.not_eq_eq_eq_not, Bool.not_true] at ha
        rcases ha.2 with hn | hn <;> subst hn <;> simp [fetch, hcm, statusOk]
    | cons b ts2 =>
      have hc1 : ¬ (c + 1 > m) := by
        simp only [List.length_cons] at hlen
        omega
      have step : fetch m c ((a :: b :: ts2) ++ rest) = fetch m (c + 1) ((b :: ts2) ++ rest) := by
        cases a with
        | netError => simp [fetch, hc1]
        | response n =>
          simp only [isTransient, Bool.and_eq_true, Bool.or_eq_true, beq_iff_eq,
            Bool.not_eq_eq_eq_not, Bool.not_true] at ha
          rcases ha.2 with hn | hn <;> subst hn <;> simp [fetch, hc1, statusOk]
      rw [step]
      exact ih hts (c + 1) rest (by simp only [List.length_cons] at hlen ⊢; omega) (by simp)

/-- C1: starting from a reset shared counter, a run of exactly
maxRetries + 1 consecutive transient attempts makes fetch fail with the
max-retries-exceeded error, whatever would come afterwards; a run of at
most maxRetries transient attempts followed by an ok response makes the
call succeed with that response, with the shared counter reset to zero for
the next run; and the default ceiling is 5. -/
theorem retry_ceiling (m : Nat) (ts rest : List Attempt)
    (hts : ∀ a ∈ ts, isTransient a = true) :
    (ts.length = m + 1 → fetch m 0 (ts ++ rest) = FetchOutcome.maxRetriesExceeded)
  ∧ (∀ n, statusOk n = true → ts.length ≤ m →
      fetch m 0 (ts ++ Attempt.response n :: rest) = FetchOutcome.success n 0)
  ∧ defaultMaxRetries = 5 := by
  refine ⟨?_, ?_, rfl⟩
  · intro hlen
    refine fetch_transient_exhaust m ts hts 0 rest (by omega) ?_
    intro hnil
    rw [hnil] at hlen
    simp at hlen
  · intro n hn hle
    rw [fetch_transient_run m ts hts 0 (Attempt.response n :: rest) (by omega)]
    simp [fetch, hn]

/-- Witness for C1 with a ceiling of one retry: two consecutive transient
failures exhaust the budget, one failure followed by a 200 succeeds with
the counter back at zero. -/
theorem retry_ceiling_witness :
    fetch 1 0 [Attempt.netError, Attempt.response 503] = FetchOutcome.maxRetriesExceeded
  ∧ fetch 1 0 [Attempt.response 429, Attempt.response 200] = FetchOutcome.success 200 0 := by
  constructor
  · have h := (retry_ceiling 1 [Attempt.netError, Attempt.response 503] [] (by decide)).1 rfl
    simpa using h
  · have h := (retry_ceiling 1 [Attempt.response 429] [] (by decide)).2.1 200 (by decide) (by decide)
    simpa using h

/-- The serialization the spec describes, written from its words for
comparison with the source model: each operation waits on the pending
handle (ready at the gate time), proceeds at the maximum of its own start
time and the gate, and atomically replaces the handle with one resolving a
full delay after it proceeded; requests dispatch at the proceed times. -/
def specGateTimes (delay : Nat) : Nat → List Nat → List Nat
  | _, [] => []
  | gate, t :: ts => max t gate :: specGateTimes delay (max t gate + delay) ts

theorem specGateTimes_ge_gate (delay : Nat) :
    ∀ (ts : List Nat) (gate : Nat), ∀ x ∈ specGateTimes delay gate ts, gate ≤ x := by
  intro ts
  induction ts with
  | nil => intro gate x hx; simp [specGateTimes] at hx
  | cons t ts ih =>
    intro gate x hx
    simp only [specGateTimes, List.mem_cons] at hx
    rcases hx with hx | hx
    · omega
    · have := ih (max t gate + delay) x hx
      omega

theorem specGateTimes_pairwise (delay gate : Nat) (arrivals : List Nat) :
    List.Pairwise (fun a b => a + delay ≤ b) (specGateTimes delay gate arrivals) := by
  induction arrivals generalizing gate with
  | nil => exact List.Pairwise.nil
  | cons t ts ih =>
    refine List.Pairwise.cons ?_ (ih (max t gate + delay))
    intro x hx
    exact specGateTimes_ge_gate delay ts (max t gate + delay) x hx

/-- The pending-delay handle a fetch arriving at time t actually reads
(mod.ts line 35). A fetch only replaces the shared handle at line 48 after
resuming from its await, so the handle visible at time t is the one
installed by the latest fetch that resumed strictly before t; a handle
installed at resume time r resolves at r + delay. Resumes of fetches are
listed in arrival order, so the latest is the largest. -/
def gateAt (delay g0 : Nat) (done : List Nat) (t : Nat) : Nat :=
  (done.filter (fun r => decide (r < t))).foldl (fun acc r => max acc (r + delay)) g0

/-- Embedding of the rate limiter of fetch (mod.ts lines 29, 35, 48) with
the await suspension made explicit. Arrivals are the times at which each
fetch executes the await of line 35, in program order; each fetch resumes
as soon as both its arrival time and the handle it read allow, dispatches
its request at that moment, and installs the replacement handle. The
result lists the dispatch times; done accumulates earlier resumes. -/
def dispatchRec (delay g0 : Nat) (done : List Nat) : List Nat → List Nat
  | [] => []
  | t :: ts =>
    let r := max t (gateAt delay g0 done t)
    r :: dispatchRec delay g0 (done ++ [r]) ts

/-- The sequential issuance discipline: each operation reaches its await
only strictly after the previous operation was allowed to proceed. -/
def seqDiscipline (delay : Nat) : Nat → List Nat → Bool
  | _, [] => true
  | _, [_] => true
  | gate, t :: t2 :: ts =>
    decide (max t gate < t2) && seqDiscipline delay (max t gate + delay) (t2 :: ts)

theorem dispatchRec_eq_spec (delay g0 : Nat) :
    ∀ (ts done : List Nat) (gate : Nat),
      gate = done.foldl (fun acc r => max acc (r + delay)) g0 →
      (∀ x ∈ done, ∀ t2, ts.head? = some t2 → x < t2) →
      seqDiscipline delay gate ts = true →
      dispatchRec delay g0 done ts = specGateTimes delay gate ts := by
  intro ts
  induction ts with
  | nil => intro done gate _ _ _; rfl
  | cons t ts ih =>
    intro done gate hI1 hI2 hseq
    have hall : ∀ x ∈ done, x < t := fun x hx => hI2 x hx t rfl
    have hfilter : done.filter (fun r => decide (r < t)) = done := by
      apply List.filter_eq_self.mpr
      intro x hx
      simpa using hall x hx
    have hgate : gateAt delay g0 done t = gate := by
      rw [gateAt, hfilter, hI1]
    have hr : max t (gateAt delay g0 done t) = max t gate := by rw [hgate]
    have hI1n : max t gate + delay = (done ++ [max t gate]).foldl
        (fun acc r => max acc (r + delay)) g0 := by
      rw [List.foldl_append, ← hI1]
      simp only [List.foldl_cons, List.foldl_nil]
      have : gate ≤ max t gate + delay := le_trans (le_max_right t gate) (Nat.le_add_right _ _)
      omega
    have hI2n : ∀ x ∈ done ++ [max t gate], ∀ t2, ts.head? = some t2 → x < t2 := by
      intro x hx t2 ht2
      cases ts with
      | nil => exact absurd ht2 (by simp)
      | cons t2c ts2 =>
        have ht2c : t2c = t2 := by simpa using ht2
        subst ht2c
        have hlt : max t gate < t2c := by
          simp only [seqDiscipline, Bool.and_eq_true, decide_eq_true_eq] at hseq
          exact hseq.1
        rcases List.mem_append.mp hx with hx | hx
        · have := hall x hx
          have : x ≤ max t gate := le_trans (le_of_lt this) (le_max_left t gate)
          omega
        · have hxeq : x = max t gate := by simpa using hx
          omega
    have hseqn : seqDiscipline delay (max t gate + delay) ts = true := by
      cases ts with
      | nil => rfl
      | cons t2c ts2 =>
        simp only [seqDiscipline, Bool.and_eq_true, decide_eq_true_eq] at hseq
        exact hseq.2
    simp only [dispatchRec, specGateTimes, hr]
    rw [ih (done ++ [max t gate]) (max t gate + delay) hI1n hI2n hseqn]

/-- C2 counterexample: two operations issued in the same tick (both
reaching the await of line 35 at time 0 while the initial handle is
already resolved) read the same pending handle, since a fetch only
replaces the handle after resuming from its await; both requests are
dispatched at time 0, not the default minimum of 250 apart. -/
theorem rate_limit_race_counterexample :
    dispatchRec defaultReqDelay 0 [] [0, 0] = [0, 0]
  ∧ ¬ List.Pairwise (fun a b => a + defaultReqDelay ≤ b)
      (dispatchRec defaultReqDelay 0 [] [0, 0]) := by
  constructor
  · rfl
  · decide

/-- C2 amended: under sequential issuance, where each operation reaches
its await only after the previous one was allowed to proceed, the shared
handle behaves as the spec says: the source model coincides with the
serialized gate and consecutive dispatches are pairwise at least the
configured delay apart (default 250); two operations that reach their
awaits concurrently can share the pending handle and dispatch closer
together. -/
theorem rate_limit_spacing (delay g0 : Nat) (arrivals : List Nat)
    (hseq : seqDiscipline delay g0 arrivals = true) :
    dispatchRec delay g0 [] arrivals = specGateTimes delay g0 arrivals
  ∧ List.Pairwise (fun a b => a + delay ≤ b) (dispatchRec delay g0 [] arrivals)
  ∧ defaultReqDelay = 250 := by
  have heq := dispatchRec_eq_spec delay g0 arrivals [] g0 (by simp) (by simp) hseq
  refine ⟨heq, ?_, rfl⟩
  rw [heq]
  exact specGateTimes_pairwise delay g0 arrivals

/-- Witness for the amended C2: three operations issued sequentially at
times 0, 300 and 600 dispatch at 0, 300 and 600, each at least 250 after
the previous one. -/
theorem rate_limit_spacing_witness :
    dispatchRec 250 0 [] [0, 300, 600] = specGateTimes 250 0 [0, 300, 600]
  ∧ List.Pairwise (fun a b => a + 250 ≤ b) (dispatchRec 250 0 [] [0, 300, 600]) := by
  have h := rate_limit_spacing 250 0 [0, 300, 600] (by decide)
  exact ⟨h.1, h.2.1⟩

/-- A JS number as far as the pagination code observes it: an integer or
NaN. -/
inductive JsNum where
  | nan
  | int (n : Int)
deriving DecidableEq, Repr

/-- JS strict equality on numbers: NaN compares unequal to everything,
itself included. -/
def jsStrictEq : JsNum → JsNum → Bool
  | JsNum.int a, JsNum.int b => a == b
  | _, _ => false

/-- Decimal value of a digit string, as JS numeric coercion reads it. -/
def digitsToNat (l : List Char) : Nat := l.foldl (fun n c => 10 * n + digitVal c) 0

/-- JS ToNumber applied by the unary plus to an attr(...) result, which is
a string or undefined: undefined gives NaN, the empty string gives 0, a
decimal integer literal (optionally negative) gives its value, and any
other string gives NaN. -/
def jsToNumber : Option String → JsNum
  | none => JsNum.nan
  | some s =>
    match s.data with
    | [] => JsNum.int 0
    | '-' :: rest =>
      if !rest.isEmpty && rest.all Char.isDigit then JsNum.int (-(digitsToNat rest : Nat))
      else JsNum.nan
    | l => if l.all Char.isDigit then JsNum.int (digitsToNat l) else JsNum.nan

/-- JS nullish test on a number: a number, NaN included, is never null or
undefined. -/
def jsNullish (_ : JsNum) : Bool := false

/-- The pager attribute reads at mod.ts lines 179-180. The unary plus
binds tighter than the nullish-coalescing operator, so the coercion runs
first and the default of 1 applies only if the resulting number were
nullish, which no number is. -/
def pagerField (attr : Option String) : JsNum :=
  let v := jsToNumber attr
  if jsNullish v then JsNum.int 1 else v

/-- JS addition of a number and an integer literal: NaN propagates. -/
def jsAdd : JsNum → Int → JsNum
  | JsNum.nan, _ => JsNum.nan
  | JsNum.int a, b => JsNum.int (a + b)

/-- JS conversion of a number to a string, as the concatenation with the
empty string performs it when building the p query parameter. -/
def jsNumToString : JsNum → String
  | JsNum.nan => "NaN"
  | JsNum.int n => toString n

/-- Comparison used only to state the claimed page invariant: a comparison
with NaN is false. -/
def jsLe : JsNum → JsNum → Bool
  | JsNum.int a, JsNum.int b => decide (a ≤ b)
  | _, _ => false

/-- A URL as the pagination code observes it: everything apart from the p
query parameter, and the p parameter itself. -/
structure Url where
  base : String
  p : Option String
deriving DecidableEq, Repr, Inhabited

/-- The call url.searchParams.set with key p on the URL object stored at
index r of the heap of live URL objects: an in-place update. -/
def setParamP (w : List Url) (r : Nat) (v : String) : List Url :=
  w.set r { w.getD r default with p := some v }

/-- The slice of a parsed document that the pagination code reads: the
records the extractor produces and the two pager data attributes, none
standing for an absent pager node or attribute. -/
structure PagerDoc (T : Type) where
  records : List T
  pagecount : Option String
  currentpage : Option String
deriving DecidableEq, Repr

/-- EksiSozluk.Page (mod.ts lines 168-196): the entry sequence (the array
contents), the two readonly position fields, and a reference into the heap
of URL objects, since the Page aliases rather than copies the URL object
it is given. -/
structure Page (T : Type) where
  entries : List T
  pageCount : JsNum
  currentPage : JsNum
  urlRef : Nat
deriving DecidableEq, Repr

/-- The Page constructor (lines 172-181): entries come from transform of
the document, pageCount and currentPage from the pager data attributes. -/
def mkPage {T : Type} (doc : PagerDoc T) (urlRef : Nat) : Page T :=
  { entries := doc.records
    pageCount := pagerField doc.pagecount
    currentPage := pagerField doc.currentpage
    urlRef := urlRef }

/-- The claimed pagination invariant 1 <= currentPage <= pageCount. -/
def pageInvariant {T : Type} (pg : Page T) : Bool :=
  jsLe (JsNum.int 1) pg.currentPage && jsLe pg.currentPage pg.pageCount

/-- Page.next (lines 183-188). The strict-equality guard returns null with
no network access; otherwise the p parameter of the shared URL object is
set in place to currentPage + 1, that URL is fetched (the oracle fetchDoc
stands for fetchPage) and a new Page aliasing the same URL object is
built. The result carries the returned value, the heap after the call and
the requests issued. -/
def Page.next {T : Type} (fetchDoc : Url → PagerDoc T) (pg : Page T) (w : List Url) :
    Option (Page T) × List Url × List Url :=
  if jsStrictEq pg.currentPage pg.pageCount then (none, w, [])
  else
    let w2 := setParamP w pg.urlRef (jsNumToString (jsAdd pg.currentPage 1))
    let u := w2.getD pg.urlRef default
    (some (mkPage (fetchDoc u) pg.urlRef), w2, [u])

/-- Page.prev (lines 190-195), symmetric to next: the guard compares
currentPage with 1 by strict equality and the parameter becomes
currentPage - 1. -/
def Page.prev {T : Type} (fetchDoc : Url → PagerDoc T) (pg : Page T) (w : List Url) :
    Option (Page T) × List Url × List Url :=
  if jsStrictEq pg.currentPage (JsNum.int 1) then (none, w, [])
  else
    let w2 := setParamP w pg.urlRef (jsNumToString (jsAdd pg.currentPage (-1)))
    let u := w2.getD pg.urlRef default
    (some (mkPage (fetchDoc u) pg.urlRef), w2, [u])

/-- EksiSozluk.entry (lines 160-166): fetch the single-entry document, run
the extractor and return element 0 of the resulting array; a JS read of an
out-of-bounds index yields undefined, modelled as none. -/
def entry {T : Type} (doc : PagerDoc T) : Option T := doc.records.get? 0

/-- The optional explicit page or focus request of entries. -/
structure TopicQuery where
  page : Option Int
  focusTo : Option Int
deriving DecidableEq, Repr

/-- What one fetch hands back to entries: the parsed document and res.url,
the URL as resolved after redirects. -/
structure FetchResp (T : Type) where
  doc : PagerDoc T
  resolvedUrl : Url

/-- Result of entries: the requests issued in order, the Page returned and
the heap of URL objects after the call. -/
structure EntriesResult (T : Type) where
  requests : List Url
  page : Page T
  heap : List Url

/-- EksiSozluk.entries (lines 143-158): the p parameter is forced to 1 and
the topic fetched; with no query the Page is built from that document with
no further fetch, while with a query res.url is fetched a second time (the
TODO at line 151 leaves the query parameters unapplied) and the Page is
built from the re-fetched document. Either way the Page receives a freshly
allocated URL object holding res.url. -/
def entries {T : Type} (net : Url → FetchResp T) (title : String)
    (query : Option TopicQuery) (w : List Url) : EntriesResult T :=
  let url0 : Url := { base := title, p := some "1" }
  let res := net url0
  let w2 := w ++ [res.resolvedUrl]
  let ref := w.length
  match query with
  | none => { requests := [url0], page := mkPage res.doc ref, heap := w2 }
  | some _ =>
    { requests := [url0, res.resolvedUrl]
      page := mkPage (net res.resolvedUrl).doc ref
      heap := w2 }

/-- C4 (code divergence): when the pager node or its data attributes are
absent, or an attribute value is not numeric, the constructed Page holds
NaN in pageCount and currentPage instead of the documented default of 1:
the unary plus runs before the nullish coalescing, the coercion of
undefined is NaN, and NaN is not nullish, so the default of 1 at lines
179-180 is unreachable. -/
theorem pager_defaults_are_nan :
    (mkPage (T := Unit) { records := [], pagecount := none, currentpage := none } 0).pageCount
      = JsNum.nan
  ∧ (mkPage (T := Unit) { records := [], pagecount := none, currentpage := none } 0).currentPage
      = JsNum.nan
  ∧ (mkPage (T := Unit) { records := [], pagecount := some "abc", currentpage := some "x2" } 0).pageCount
      = JsNum.nan
  ∧ (mkPage (T := Unit) { records := [], pagecount := some "abc", currentpage := some "x2" } 0).currentPage
      = JsNum.nan := by
  refine ⟨rfl, rfl, ?_, ?_⟩ <;> decide

/-- C7: entry returns exactly the first record extracted from the fetched
single-entry document, and when the extractor yields zero records there is
no record-shaped value to return: the read of index 0 yields none. -/
theorem entry_first_record {T : Type} (r : T) (rs : List T) (pc cp pc2 cp2 : Option String) :
    entry { records := r :: rs, pagecount := pc, currentpage := cp } = some r
  ∧ entry { records := ([] : List T), pagecount := pc2, currentpage := cp2 } = none :=
  ⟨rfl, rfl⟩

/-- C9 (code divergence): entries always first fetches with p forced to 1;
with no query that single fetch also provides the document of the Page;
with a query a second fetch is issued at res.url exactly as resolved, and
both the requests and the resulting Page are identical whatever page or
focus the query asks for, so the query is not honored. -/
theorem entries_second_fetch_ignores_query {T : Type} (net : Url → FetchResp T)
    (title : String) (q1 q2 : TopicQuery) (w : List Url) :
    (entries net title none w).requests = [{ base := title, p := some "1" }]
  ∧ (entries net title none w).page = mkPage (net { base := title, p := some "1" }).doc w.length
  ∧ (entries net title (some q1) w).requests
      = [{ base := title, p := some "1" }, (net { base := title, p := some "1" }).resolvedUrl]
  ∧ (entries net title (some q1) w).requests = (entries net title (some q2) w).requests
  ∧ (entries net title (some q1) w).page = (entries net title (some q2) w).page :=
  ⟨rfl, rfl, rfl, rfl, rfl⟩

/-- C3 counterexample: the Page constructor copies the pager attributes
without validation, so a document whose pager reads pagecount 2 and
currentpage 5 constructs a Page violating the claimed invariant. -/
theorem page_invariant_counterexample :
    pageInvariant
      (mkPage (T := Unit) { records := [], pagecount := some "2", currentpage := some "5" } 0)
      = false := by
  decide

/-- C3 amended: the invariant 1 <= currentPage <= pageCount (and
pageCount >= 1) holds exactly for Pages built - initially or by
navigation, which always goes through the same constructor - from
documents whose pager attributes coerce to integers c and k with
1 <= c <= k; the constructor itself enforces nothing. -/
theorem page_invariant_of_well_formed {T : Type} (doc : PagerDoc T) (r : Nat) (c k : Int)
    (hc : jsToNumber doc.currentpage = JsNum.int c)
    (hk : jsToNumber doc.pagecount = JsNum.int k)
    (h1 : 1 ≤ c) (h2 : c ≤ k) :
    pageInvariant (mkPage doc r) = true
  ∧ jsLe (JsNum.int 1) (mkPage doc r).pageCount = true := by
  have hkk : (1 : Int) ≤ k := le_trans h1 h2
  constructor
  · simp [pageInvariant, mkPage, pagerField, jsNullish, hc, hk, jsLe, h1, h2]
  · simp [mkPage, pagerField, jsNullish, hk, jsLe, hkk]

/-- Witness for the amended C3 at a well-formed document with currentpage 2
of 5 pages. -/
theorem page_invariant_of_well_formed_witness :
    pageInvariant
      (mkPage (T := Unit) { records := [], pagecount := some "5", currentpage := some "2" } 0)
      = true := by
  exact (page_invariant_of_well_formed
    { records := [], pagecount := some "5", currentpage := some "2" } 0 2 5
    (by decide) (by decide) (by decide) (by decide)).1

/-- C5 counterexample: on a Page built from a pager-less document both
position fields hold NaN, equal as stored values, yet the strict-equality
guard of next is false on NaN, so instead of returning null without
network access, next issues a request with the p parameter set to NaN. -/
theorem next_boundary_counterexample :
    ((mkPage (T := Unit) { records := [], pagecount := none, currentpage := none } 0).currentPage
      = (mkPage (T := Unit) { records := [], pagecount := none, currentpage := none } 0).pageCount)
  ∧ (Page.next (fun _ => { records := [], pagecount := none, currentpage := none })
       (mkPage (T := Unit) { records := [], pagecount := none, currentpage := none } 0)
       [{ base := "topic", p := none }]).2.2
      = [{ base := "topic", p := some "NaN" }]
  ∧ (Page.next (fun _ => { records := [], pagecount := none, currentpage := none })
       (mkPage (T := Unit) { records := [], pagecount := none, currentpage := none } 0)
       [{ base := "topic", p := none }]).1 ≠ none := by
  refine ⟨rfl, ?_, ?_⟩ <;> decide

/-- C5 amended: when currentPage and pageCount hold one and the same
integer, next returns null touching neither the heap nor the network, and
symmetrically prev when currentPage is the integer 1; the guards use JS
strict equality, so two NaN fields do not count as equal and next then
does issue a request. -/
theorem next_prev_boundary {T : Type} (f : Url → PagerDoc T) (pg : Page T) (w : List Url)
    (n : Int) (hc : pg.currentPage = JsNum.int n) :
    (pg.pageCount = JsNum.int n → Page.next f pg w = (none, w, []))
  ∧ (n = 1 → Page.prev f pg w = (none, w, [])) := by
  constructor
  · intro hk
    simp [Page.next, jsStrictEq, hc, hk]
  · intro h1
    subst h1
    simp [Page.prev, jsStrictEq, hc]

/-- Witness for the amended C5: next on page 3 of 3 and prev on page 1 of 4
both return null with untouched heap and no request. -/
theorem next_prev_boundary_witness :
    Page.next (fun _ => { records := [], pagecount := none, currentpage := none })
      (mkPage (T := Unit) { records := [], pagecount := some "3", currentpage := some "3" } 0) []
      = (none, [], [])
  ∧ Page.prev (fun _ => { records := [], pagecount := none, currentpage := none })
      (mkPage (T := Unit) { records := [], pagecount := some "4", currentpage := some "1" } 0) []
      = (none, [], []) := by
  constructor
  · exact (next_prev_boundary _ _ _ 3 (by decide)).1 (by decide)
  · exact (next_prev_boundary _ _ _ 1 (by decide)).2 rfl

theorem urlHeap_getD_set_self : ∀ (w : List Url) (r : Nat) (v : Url), r < w.length →
    (w.set r v).getD r default = v
  | _ :: _, 0, _, _ => rfl
  | _ :: w, r+1, v, h => urlHeap_getD_set_self w r v (by simpa using h)
  | [], _, _, h => absurd h (by simp)

theorem urlHeap_getD_set_ne : ∀ (w : List Url) (r j : Nat) (v : Url), r ≠ j →
    (w.set r v).getD j default = w.getD j default
  | [], _, _, _, _ => by simp
  | _ :: _, 0, 0, _, hne => absurd rfl hne
  | _ :: _, 0, j+1, _, _ => by simp [List.getD]
  | _ :: _, r+1, 0, _, _ => by simp [List.getD]
  | _ :: w, r+1, j+1, v, hne => by
    have ih := urlHeap_getD_set_ne w r j v (fun hc => hne (by rw [hc]))
    simpa [List.getD] using ih

/-- C6 counterexample: from a non-boundary page (currentpage 1 of 2), next
mutates the stored URL object in place, setting its p parameter to
currentPage + 1, so the stored URL of the existing instance does not stay
unchanged. -/
theorem next_url_mutation_counterexample :
    (Page.next (fun _ => { records := [], pagecount := none, currentpage := none })
       (mkPage (T := Unit) { records := [], pagecount := some "2", currentpage := some "1" } 0)
       [{ base := "topic", p := some "1" }]).2.1
      ≠ [{ base := "topic", p := some "1" }]
  ∧ (Page.next (fun _ => { records := [], pagecount := none, currentpage := none })
       (mkPage (T := Unit) { records := [], pagecount := some "2", currentpage := some "1" } 0)
       [{ base := "topic", p := some "1" }]).2.1
      = [{ base := "topic", p := some "2" }] := by
  refine ⟨?_, ?_⟩ <;> decide

/-- C6 amended: a non-boundary next returns a new Page instance built from
the fetched document; the fields of the existing instance are never
reassigned, but the stored URL object is mutated in place: its p parameter
becomes currentPage + 1 (currentPage - 1 for prev), every other URL object
is untouched, and the new Page aliases the very same URL object. -/
theorem next_prev_frame {T : Type} (f : Url → PagerDoc T) (pg : Page T) (w : List Url)
    (c k : Int) (hc : pg.currentPage = JsNum.int c) (hk : pg.pageCount = JsNum.int k)
    (hr : pg.urlRef < w.length) :
    (c ≠ k →
      ((Page.next f pg w).2.1.getD pg.urlRef default).p = some (toString (c + 1))
      ∧ (∀ j, j ≠ pg.urlRef → (Page.next f pg w).2.1.getD j default = w.getD j default)
      ∧ ∃ pg2, (Page.next f pg w).1 = some pg2 ∧ pg2.urlRef = pg.urlRef
          ∧ pg2 = mkPage (f ((Page.next f pg w).2.1.getD pg.urlRef default)) pg.urlRef)
  ∧ (c ≠ 1 →
      ((Page.prev f pg w).2.1.getD pg.urlRef default).p = some (toString (c - 1))
      ∧ (∀ j, j ≠ pg.urlRef → (Page.prev f pg w).2.1.getD j default = w.getD j default)
      ∧ ∃ pg2, (Page.prev f pg w).1 = some pg2 ∧ pg2.urlRef = pg.urlRef
          ∧ pg2 = mkPage (f ((Page.prev f pg w).2.1.getD pg.urlRef default)) pg.urlRef) := by
  constructor
  · intro hne
    have hbe : (c == k) = false := beq_eq_false_iff_ne.mpr hne
    have hnext : Page.next f pg w =
        (some (mkPage
            (f ((setParamP w pg.urlRef (toString (c + 1))).getD pg.urlRef default)) pg.urlRef),
         setParamP w pg.urlRef (toString (c + 1)),
         [(setParamP w pg.urlRef (toString (c + 1))).getD pg.urlRef default]) := by
      simp [Page.next, jsStrictEq, hc, hk, hbe, jsAdd, jsNumToString]
    rw [hnext]
    refine ⟨?_, ?_, ⟨_, rfl, rfl, rfl⟩⟩
    · rw [setParamP, urlHeap_getD_set_self w pg.urlRef _ hr]
    · intro j hj
      rw [setParamP, urlHeap_getD_set_ne w pg.urlRef j _ (fun hc2 => hj (by rw [hc2]))]
  · intro hne
    have hbe : (c == (1 : Int)) = false := beq_eq_false_iff_ne.mpr hne
    rw [show (c - 1 : Int) = c + (-1) from sub_eq_add_neg c 1]
    have hprev : Page.prev f pg w =
        (some (mkPage
            (f ((setParamP w pg.urlRef (toString (c + (-1)))).getD pg.urlRef default)) pg.urlRef),
         setParamP w pg.urlRef (toString (c + (-1))),
         [(setParamP w pg.urlRef (toString (c + (-1)))).getD pg.urlRef default]) := by
      simp [Page.prev, jsStrictEq, hc, hbe, jsAdd, jsNumToString]
    rw [hprev]
    refine ⟨?_, ?_, ⟨_, rfl, rfl, rfl⟩⟩
    · rw [setParamP, urlHeap_getD_set_self w pg.urlRef _ hr]
    · intro j hj
      rw [setParamP, urlHeap_getD_set_ne w pg.urlRef j _ (fun hc2 => hj (by rw [hc2]))]

/-- Witness for the amended C6 on page 2 of 3: next rewrites the shared
URL object to p=3, prev to p=1. -/
theorem next_prev_frame_witness :
    ((Page.next (fun _ => { records := [], pagecount := none, currentpage := none })
        (mkPage (T := Unit) { records := [], pagecount := some "3", currentpage := some "2" } 0)
        [{ base := "t", p := some "2" }]).2.1.getD 0 default).p = some (toString ((2 : Int) + 1))
  ∧ ((Page.prev (fun _ => { records := [], pagecount := none, currentpage := none })
        (mkPage (T := Unit) { records := [], pagecount := some "3", currentpage := some "2" } 0)
        [{ base := "t", p := some "2" }]).2.1.getD 0 default).p = some (toString ((2 : Int) - 1)) := by
  have h := next_prev_frame (fun _ => { records := [], pagecount := none, currentpage := none })
    (mkPage (T := Unit) { records := [], pagecount := some "3", currentpage := some "2" } 0)
    [{ base := "t", p := some "2" }] 2 3 (by decide) (by decide) (by decide)
  exact ⟨(h.1 (by decide)).1, (h.2 (by decide)).1⟩
